import Mathlib

/-
Shallow embedding of src/extract_logs.js (class LogExtractor).

The log file is modelled as a `List Char` (the files handled by the program
are ASCII, where JS UTF-16 code-unit order coincides with `Char` order).
A date string is likewise a `List Char`.

A file read that never resolves (the promise in `getDateAtPosition` has no
handler for the stream `end` event, so when no newline occurs after the start
offset the promise never settles) is modelled by `none`.
-/

namespace ExtractLogs

/-- JS string `<` (code-unit lexicographic comparison), on ASCII data. -/
def jsLt : List Char → List Char → Bool
  | [], [] => false
  | [], _ :: _ => true
  | _ :: _, [] => false
  | a :: as, b :: bs => a < b || (a == b && jsLt as bs)

/-- Reading forward from a suffix of the file until the first newline:
the resolved value is the first 10 bytes of the accumulated line
(`data.slice(0, newlineIndex).substring(0, 10)`); `none` when the suffix
holds no newline, modelling the promise that never settles. -/
def readFrom (rest : List Char) : Option (List Char) :=
  if '\n' ∈ rest then some ((rest.takeWhile (fun c => c ≠ '\n')).take 10) else none

/-- LogExtractor.getDateAtPosition: open a read stream at `position`,
accumulate until a newline, resolve with the first 10 bytes. -/
def getDateAtPosition (file : List Char) (position : Nat) : Option (List Char) :=
  readFrom (file.drop position)

/-- The same read performed chunk by chunk, as the `data` events deliver it:
after each chunk the accumulated buffer is checked for a newline
(`data.indexOf('\x5Cn')`), and the promise resolves on the first hit. -/
def chunkedRead : List (List Char) → List Char → Option (List Char)
  | [], _ => none
  | c :: cs, acc =>
    if '\n' ∈ acc ++ c then some (((acc ++ c).takeWhile (fun x => x ≠ '\n')).take 10)
    else chunkedRead cs (acc ++ c)

/-- Main loop of LogExtractor.binarySearch (`while (left <= right)`),
parametrised by the reader so that the chunk-level variant can reuse it.
The fuel argument only bounds the number of iterations; `binarySearchWith`
supplies more fuel than the loop can ever consume. -/
def bsLoop (reader : Nat → Option (List Char)) (target : List Char) :
    Nat → Int → Int → Int → Option Int
  | 0, _, _, sp => some sp
  | fuel + 1, left, right, sp =>
    if left ≤ right then
      match reader (left + (right - left) / 2).toNat with
      | none => none
      | some date =>
        if date = target then
          bsLoop reader target fuel left (left + (right - left) / 2 - 1)
            (left + (right - left) / 2)
        else if jsLt date target then
          bsLoop reader target fuel (left + (right - left) / 2 + 1) right sp
        else
          bsLoop reader target fuel left (left + (right - left) / 2 - 1) sp
    else some sp

/-- Backtrack loop of LogExtractor.binarySearch (`while (startPosition > 0)`):
probe position `startPosition - 1`; stop on the first non-matching date,
otherwise decrement and continue. -/
def backtrackLoop (reader : Nat → Option (List Char)) (target : List Char) :
    Nat → Int → Option Int
  | 0, sp => some sp
  | fuel + 1, sp =>
    if 0 < sp then
      match reader (sp - 1).toNat with
      | none => none
      | some prevDate =>
        if prevDate = target then backtrackLoop reader target fuel (sp - 1) else some sp
    else some sp

/-- LogExtractor.binarySearch: `left = 0`, `right = fileSize - 1`,
`startPosition = -1`; after the main loop, backtrack when a candidate was
recorded. The result is `some (-1)` for NotFound, `some p` (`p ≥ 0`) for a
found offset, `none` when some read never resolves. -/
def binarySearchWith (reader : Nat → Option (List Char)) (target : List Char)
    (fileSize : Nat) : Option Int :=
  match bsLoop reader target (fileSize + 1) 0 ((fileSize : Int) - 1) (-1) with
  | none => none
  | some sp => if sp = -1 then some (-1) else backtrackLoop reader target (sp.toNat + 1) sp

def binarySearch (file : List Char) (target : List Char) : Option Int :=
  binarySearchWith (getDateAtPosition file) target file.length

/-- The line sequence produced by `readline.createInterface` over a suffix of
the file: split on newline characters, the final fragment emitted even without
a trailing newline, nothing emitted for an empty stream. -/
def jsLines : List Char → List (List Char)
  | [] => []
  | c :: cs =>
    if c = '\n' then [] :: jsLines cs
    else
      match jsLines cs with
      | [] => [[c]]
      | l :: ls => (c :: l) :: ls

/-- The `for await (const line of rl)` loop of LogExtractor.extractLogs:
for each line whose `substring(0, 10)` equals the target, write
`line + '\x5Cn'` to the output stream and count it; break on the first
mismatch. Returns (matchedLines, bytes written to the output file). -/
def scanLines (target : List Char) : List (List Char) → Nat × List Char
  | [] => (0, [])
  | line :: rest =>
    if line.take 10 = target then
      ((scanLines target rest).1 + 1, (line ++ ['\n']) ++ (scanLines target rest).2)
    else (0, [])

/-- The validation regex of LogExtractor.extractLogs:
`^\x5Cd\x7b4\x7d-\x5Cd\x7b2\x7d-\x5Cd\x7b2\x7d$`. -/
def isValidDateFormat (t : List Char) : Bool :=
  match t with
  | [y1, y2, y3, y4, h1, m1, m2, h2, d1, d2] =>
    y1.isDigit && y2.isDigit && y3.isDigit && y4.isDigit && h1 == '-' &&
      m1.isDigit && m2.isDigit && h2 == '-' && d1.isDigit && d2.isDigit
  | _ => false

def outputNameStart : List Char := "output_".data

def outputNameEnd : List Char := ".txt".data

/-- The output file name `output_<targetDate>.txt` inside the output
directory. -/
def outputFileName (target : List Char) : List Char :=
  outputNameStart ++ target ++ outputNameEnd

/-- The summary value returned by LogExtractor.extractLogs, together with the
name and final byte content of the output file it created. The wall-clock
`executionTime` field is not part of the model. -/
structure Summary where
  totalLines : Nat
  matchedLines : Nat
  outputName : List Char
  outputContent : List Char
deriving DecidableEq

/-- Outcome of one `extractLogs` call: the thrown invalid-format error, a hang
(a read promise that never settles, after the output file was already
created empty), or normal completion. -/
inductive ExtractOutcome where
  | invalidDateFormat : ExtractOutcome
  | hang : List Char → ExtractOutcome
  | done : Summary → ExtractOutcome
deriving DecidableEq

/-- LogExtractor.extractLogs: validate the date shape, create the output
directory and (empty) output file, stat the log file, binary search, and on a
found position scan forward writing matching lines. On NotFound the summary
`\x7b totalLines: 0, matchedLines: 0 \x7d` is returned. Parametrised by the
reader used for the search probes. -/
def extractLogsCore (reader : Nat → Option (List Char)) (file : List Char)
    (target : List Char) : ExtractOutcome :=
  if isValidDateFormat target then
    match binarySearchWith reader target file.length with
    | none => ExtractOutcome.hang (outputFileName target)
    | some sp =>
      if sp = -1 then ExtractOutcome.done ⟨0, 0, outputFileName target, []⟩
      else
        ExtractOutcome.done ⟨file.length, (scanLines target (jsLines (file.drop sp.toNat))).1,
          outputFileName target, (scanLines target (jsLines (file.drop sp.toNat))).2⟩
  else ExtractOutcome.invalidDateFormat

def extractLogs (file : List Char) (target : List Char) : ExtractOutcome :=
  extractLogsCore (getDateAtPosition file) file target

/-- A probe read realised as a particular sequence of `data` chunks. -/
def chunkedReader (oracle : Nat → List (List Char)) : Nat → Option (List Char) :=
  fun p => chunkedRead (oracle p) []

/-- The oracle delivers, for each probe position, chunks whose concatenation
is exactly the file suffix starting there. -/
def ValidOracle (file : List Char) (oracle : Nat → List (List Char)) : Prop :=
  ∀ p : Nat, (oracle p).flatten = file.drop p

/-- `extractLogs` run with the probe reads delivered by a particular chunk
schedule (one run of the program). -/
def extractLogsChunked (file : List Char) (oracle : Nat → List (List Char))
    (target : List Char) : ExtractOutcome :=
  extractLogsCore (chunkedReader oracle) file target

/-- A well-formed log line: a `YYYY-MM-DD` date prefix followed by a separator
and content. -/
def wfLine (l : List Char) : Bool :=
  isValidDateFormat (l.take 10) && decide (10 < l.length)

/-- Dates sorted non-decreasing (adjacent pairs). -/
def sortedDates : List (List Char) → Bool
  | [] => true
  | [_] => true
  | a :: b :: rest => !jsLt b a && sortedDates (b :: rest)

/-- A well-formed sorted log file: newline-terminated well-formed lines whose
date prefixes are non-decreasing. -/
def wfFile (file : List Char) : Bool :=
  (file.isEmpty || file.getLast? == some '\n') && (jsLines file).all wfLine &&
    sortedDates ((jsLines file).map (fun l => l.take 10))

/-- The true set of matching lines of a file (independent linear scan). -/
def matchingLines (file : List Char) (target : List Char) : List (List Char) :=
  (jsLines file).filter (fun l => l.take 10 == target)

/-- A file assembled from newline-free lines, each newline-terminated. -/
def flattenLines (ls : List (List Char)) : List Char :=
  (ls.map (fun l => l ++ ['\n'])).flatten

/-- Byte offset at which line `i` starts inside `flattenLines ls`. -/
def lineOffset : List (List Char) → Nat → Nat
  | _, 0 => 0
  | [], _ + 1 => 0
  | l :: ls, i + 1 => l.length + 1 + lineOffset ls i

/- Concrete data used in counterexamples and witnesses. -/

def target1202 : List Char := "2024-12-02".data

def date1201 : List Char := "2024-12-01".data

def dateAbsent : List Char := "2025-01-01".data

def dateBad40 : List Char := "2024-13-40".data

def dateBadCompact : List Char := "20241201".data

/-- The spec's concrete scenario file. -/
def fileConcrete : List Char :=
  "2024-12-01 A\n2024-12-02 B\n2024-12-02 C\n2024-12-03 D\n".data

def fileOneLine : List Char := "2024-12-01 A\n".data

def lineA : List Char := "2024-12-01 A".data

def lineB : List Char := "2024-12-02 B".data

def lineC : List Char := "2024-12-02 C".data

/-- A file whose final line has no trailing newline. -/
def fileTruncated : List Char := "2024-12-01 A".data

/-- A sorted well-formed one-line file whose line content spells a date that
appears nowhere as a date prefix. -/
def fileSneaky : List Char := "2024-12-01 2024-12-02x\n".data

def lineSneaky : List Char := "2024-12-01 2024-12-02x".data

/-- The ten bytes read when probing `fileOneLine` at offset 1. -/
def shiftedWindow : List Char := "024-12-01 ".data

/-- The bytes that `extractLogs` writes to the output file on `fileSneaky`
with target `target1202`. -/
def sneakyOutput : List Char := "2024-12-02x\n".data

/-- The midpoint probe `left + (right - left) / 2` stays inside the current
interval. -/
theorem mid_bounds {l r : Int} (h : l ≤ r) :
    l ≤ l + (r - l) / 2 ∧ l + (r - l) / 2 ≤ r := by omega

/-- When the interval is already empty the main loop returns the recorded
candidate at any fuel. -/
theorem bsLoop_exit (reader : Nat → Option (List Char)) (target : List Char)
    {l r : Int} (h : ¬ l ≤ r) (sp : Int) :
    ∀ fuel, bsLoop reader target fuel l r sp = some sp := by
  intro fuel
  cases fuel with
  | zero => rfl
  | succ f => simp [bsLoop, h]

/-- Any value returned by the main loop is the initial candidate or lies in
the initial interval. -/
theorem bsLoop_out (reader : Nat → Option (List Char)) (target : List Char) :
    ∀ (fuel : Nat) (l r sp out : Int), bsLoop reader target fuel l r sp = some out →
      out = sp ∨ (l ≤ out ∧ out ≤ r) := by
  intro fuel
  induction fuel with
  | zero =>
    intro l r sp out h
    simp only [bsLoop, Option.some.injEq] at h
    exact Or.inl h.symm
  | succ f ih =>
    intro l r sp out h
    simp only [bsLoop] at h
    split at h
    · rename_i hlr
      have hm := mid_bounds hlr
      split at h
      · exact absurd h (by simp)
      · split at h
        · rcases ih _ _ _ _ h with h1 | ⟨h2, h3⟩ <;> right <;> omega
        · split at h
          · rcases ih _ _ _ _ h with h1 | ⟨h2, h3⟩
            · exact Or.inl h1
            · right; omega
          · rcases ih _ _ _ _ h with h1 | ⟨h2, h3⟩
            · exact Or.inl h1
            · right; omega
    · simp only [Option.some.injEq] at h
      exact Or.inl h.symm

/-- Postcondition of the backtrack loop: with enough fuel, the returned
position is 0 or the probe just before it reads a non-matching date. -/
theorem backtrackLoop_post (reader : Nat → Option (List Char)) (target : List Char) :
    ∀ (fuel : Nat) (sp q : Int), 0 ≤ sp → sp.toNat < fuel →
      backtrackLoop reader target fuel sp = some q →
      q = 0 ∨ ∃ d, reader (q - 1).toNat = some d ∧ d ≠ target := by
  intro fuel
  induction fuel with
  | zero => intro sp q h0 hf; omega
  | succ f ih =>
    intro sp q h0 hf h
    simp only [backtrackLoop] at h
    split at h
    · rename_i hsp
      split at h
      · exact absurd h (by simp)
      · rename_i d hr
        split at h
        · exact ih (sp - 1) q (by omega) (by omega) h
        · rename_i hd
          injection h with h
          subst h
          exact Or.inr ⟨d, hr, hd⟩
    · rename_i hsp
      injection h with h
      omega

/-- Extra fuel beyond the interval size does not change the main loop's
result: the loop always exits through its guard within that many
iterations, because every iteration strictly shrinks the interval. -/
theorem bsLoop_fuel_indep (reader : Nat → Option (List Char)) (target : List Char) :
    ∀ (fuel extra : Nat) (l r sp : Int), (r + 1 - l).toNat ≤ fuel →
      bsLoop reader target (fuel + extra) l r sp = bsLoop reader target fuel l r sp := by
  intro fuel
  induction fuel with
  | zero =>
    intro extra l r sp hb
    have hlr : ¬ l ≤ r := by omega
    rw [bsLoop_exit reader target hlr sp, bsLoop_exit reader target hlr sp]
  | succ f ih =>
    intro extra l r sp hb
    by_cases hlr : l ≤ r
    · have hm := mid_bounds hlr
      rw [show f + 1 + extra = (f + extra) + 1 from by omega]
      simp only [bsLoop, if_pos hlr]
      cases hr : reader (l + (r - l) / 2).toNat with
      | none => rfl
      | some date =>
        simp only
        split
        · exact ih extra _ _ _ (by omega)
        · split
          · exact ih extra _ _ _ (by omega)
          · exact ih extra _ _ _ (by omega)
    · rw [bsLoop_exit reader target hlr sp, bsLoop_exit reader target hlr sp]

/-- When every in-file probe resolves, the main loop resolves. -/
theorem bsLoop_isSome (reader : Nat → Option (List Char)) (target : List Char) (n : Nat)
    (hreads : ∀ p, p < n → (reader p).isSome = true) :
    ∀ (fuel : Nat) (l r sp : Int), 0 ≤ l → r < (n : Int) →
      (bsLoop reader target fuel l r sp).isSome = true := by
  intro fuel
  induction fuel with
  | zero => intro l r sp h0 hrn; simp [bsLoop]
  | succ f ih =>
    intro l r sp h0 hrn
    by_cases hlr : l ≤ r
    · have hm := mid_bounds hlr
      have hmid : (l + (r - l) / 2).toNat < n := by omega
      have hs := hreads _ hmid
      obtain ⟨date, hr⟩ := Option.isSome_iff_exists.mp hs
      simp only [bsLoop, if_pos hlr, hr]
      split
      · exact ih l _ _ h0 (by omega)
      · split
        · exact ih _ r sp (by omega) hrn
        · exact ih l _ sp h0 (by omega)
    · simp [bsLoop, hlr]

/-- When every in-file probe resolves, the backtrack loop resolves. -/
theorem backtrackLoop_isSome (reader : Nat → Option (List Char)) (target : List Char)
    (n : Nat) (hreads : ∀ p, p < n → (reader p).isSome = true) :
    ∀ (fuel : Nat) (sp : Int), 0 ≤ sp → sp < (n : Int) →
      (backtrackLoop reader target fuel sp).isSome = true := by
  intro fuel
  induction fuel with
  | zero => intro sp h0 hn; simp [backtrackLoop]
  | succ f ih =>
    intro sp h0 hn
    by_cases hsp : 0 < sp
    · have hprev : (sp - 1).toNat < n := by omega
      have hs := hreads _ hprev
      obtain ⟨d, hr⟩ := Option.isSome_iff_exists.mp hs
      simp only [backtrackLoop, if_pos hsp, hr]
      split
      · exact ih (sp - 1) (by omega) (by omega)
      · simp
    · simp [backtrackLoop, hsp]

/-- When every in-file probe resolves, the whole search resolves. -/
theorem binarySearchWith_isSome (reader : Nat → Option (List Char)) (target : List Char)
    (n : Nat) (hreads : ∀ p, p < n → (reader p).isSome = true) :
    (binarySearchWith reader target n).isSome = true := by
  have h1 := bsLoop_isSome reader target n hreads (n + 1) 0 ((n : Int) - 1) (-1)
    (by omega) (by omega)
  obtain ⟨sp, hbs⟩ := Option.isSome_iff_exists.mp h1
  by_cases hsp : sp = -1
  · simp [binarySearchWith, hbs, hsp]
  · rcases bsLoop_out reader target _ _ _ _ _ hbs with h2 | ⟨h2, h3⟩
    · exact absurd h2 hsp
    · simp only [binarySearchWith, hbs, if_neg hsp]
      exact backtrackLoop_isSome reader target n hreads (sp.toNat + 1) sp h2 (by omega)

/-- If the accumulated data already holds a newline, appending further chunks
does not move the first newline. -/
theorem takeWhile_append_stop (d r : List Char) (h : '\n' ∈ d) :
    (d ++ r).takeWhile (fun c => c ≠ '\n') = d.takeWhile (fun c => c ≠ '\n') := by
  induction d with
  | nil => simp at h
  | cons a d ih =>
    by_cases ha : a = '\n'
    · subst ha; simp [List.takeWhile_cons]
    · have hd : '\n' ∈ d := by
        rcases List.mem_cons.mp h with h1 | h1
        · exact absurd h1.symm ha
        · exact h1
      simp only [List.cons_append, List.takeWhile_cons]
      rw [ih hd]

/-- Reading up to the first newline of `l ++ '\n' :: r` yields `l` when `l`
itself holds no newline. -/
theorem takeWhile_to_newline (l r : List Char) (h : '\n' ∉ l) :
    (l ++ '\n' :: r).takeWhile (fun c => c ≠ '\n') = l := by
  induction l with
  | nil => simp [List.takeWhile_cons]
  | cons a l ih =>
    have ha : a ≠ '\n' := fun e => h (e ▸ List.mem_cons_self a l)
    have hl : '\n' ∉ l := fun hm => h (List.mem_cons_of_mem a hm)
    simp only [List.cons_append, List.takeWhile_cons]
    rw [ih hl, if_pos (decide_eq_true ha)]

/-- The chunk-by-chunk read resolves to the same value as the read over the
whole suffix, whatever the chunk boundaries: the accumulated buffer is
re-scanned for a newline after every `data` event. -/
theorem chunkedRead_eq : ∀ (cs : List (List Char)) (acc : List Char), '\n' ∉ acc →
    chunkedRead cs acc = readFrom (acc ++ cs.flatten) := by
  intro cs
  induction cs with
  | nil =>
    intro acc h
    simp [chunkedRead, readFrom, h]
  | cons c cs ih =>
    intro acc h
    simp only [chunkedRead]
    by_cases hm : '\n' ∈ acc ++ c
    · rw [if_pos hm]
      have hflat : acc ++ (c :: cs).flatten = (acc ++ c) ++ cs.flatten := by simp
      rw [hflat, readFrom, if_pos (List.mem_append_left _ hm),
        takeWhile_append_stop _ _ hm]
    · rw [if_neg hm, ih (acc ++ c) hm]
      congr 1
      simp

/-- A valid chunk schedule gives exactly the probe reads of the
un-chunked model. -/
theorem chunkedReader_eq {file : List Char} {oracle : Nat → List (List Char)}
    (h : ValidOracle file oracle) : chunkedReader oracle = getDateAtPosition file := by
  funext p
  have hc := chunkedRead_eq (oracle p) [] (by simp)
  simp only [chunkedReader, getDateAtPosition]
  rw [hc, List.nil_append, h p]

/-- Dropping past a left factor of an append. -/
theorem drop_append_len (l r : List Char) (k : Nat) :
    (l ++ r).drop (l.length + k) = r.drop k := by
  simp [List.drop_append]

/-- A run of `extractLogs` under any valid chunk schedule coincides with the
pure model. -/
theorem extractLogsChunked_eq {file : List Char} {oracle : Nat → List (List Char)}
    (h : ValidOracle file oracle) (target : List Char) :
    extractLogsChunked file oracle target = extractLogs file target := by
  unfold extractLogsChunked extractLogs
  rw [chunkedReader_eq h]

/-- C1 fails on the code: on the spec's own concrete scenario (a well-formed
sorted 4-line file whose matching lines for `2024-12-02` are exactly
`2024-12-02 B` and `2024-12-02 C`), the binary search probes only unaligned
offsets, compares the 10 bytes found there against the target, converges
without ever recording a candidate, and returns NotFound; the extraction
reports 0 matched lines and an empty output file. -/
theorem c1_concrete_scenario_fails :
    wfFile fileConcrete = true ∧
    isValidDateFormat target1202 = true ∧
    matchingLines fileConcrete target1202 = [lineB, lineC] ∧
    binarySearch fileConcrete target1202 = some (-1) ∧
    extractLogs fileConcrete target1202 =
      ExtractOutcome.done ⟨0, 0, outputFileName target1202, []⟩ := by decide

/-- C2 counterexample: offset 1 lies strictly inside the single line of
`fileOneLine`, whose date prefix is `2024-12-01`, yet `getDateAtPosition`
returns the shifted window `024-12-01 ` (the 10 bytes starting at the offset),
not the line's date. -/
theorem c2_midline_counterexample :
    wfFile fileOneLine = true ∧
    jsLines fileOneLine = [lineA] ∧
    lineA.take 10 = date1201 ∧
    getDateAtPosition fileOneLine 1 = some shiftedWindow ∧
    shiftedWindow ≠ date1201 := by decide

/-- C2 amended: the date-reading operation returns the line's own 10-byte
date prefix exactly when the offset is a line start; for a file assembled
from newline-terminated newline-free lines, reading at the start offset of
line `i` yields the first 10 bytes of line `i`. -/
theorem c2_dateAt_line_start (ls : List (List Char)) (hnl : ∀ l ∈ ls, '\n' ∉ l) :
    ∀ (i : Nat) (hi : i < ls.length),
      getDateAtPosition (flattenLines ls) (lineOffset ls i) =
        some ((ls.get ⟨i, hi⟩).take 10) := by
  induction ls with
  | nil => intro i hi; simp at hi
  | cons l ls ih =>
    have hl : '\n' ∉ l := hnl l (List.mem_cons_self l ls)
    have hrest : ∀ x ∈ ls, '\n' ∉ x := fun x hx => hnl x (List.mem_cons_of_mem l hx)
    intro i hi
    have hflat : flattenLines (l :: ls) = (l ++ ['\n']) ++ flattenLines ls := by
      simp [flattenLines]
    cases i with
    | zero =>
      show readFrom ((flattenLines (l :: ls)).drop 0) = _
      rw [List.drop_zero, hflat]
      have hsh : (l ++ ['\n']) ++ flattenLines ls = l ++ '\n' :: flattenLines ls := by
        simp
      rw [hsh, readFrom, if_pos (by simp), takeWhile_to_newline l _ hl]
      rfl
    | succ i =>
      have hi' : i < ls.length := by simpa using hi
      show readFrom ((flattenLines (l :: ls)).drop (lineOffset (l :: ls) (i + 1))) = _
      have hoff : lineOffset (l :: ls) (i + 1) = (l ++ ['\n']).length + lineOffset ls i := by
        simp [lineOffset]
      rw [hflat, hoff, drop_append_len (l ++ ['\n']) (flattenLines ls) (lineOffset ls i)]
      exact ih hrest i hi'

/-- Witness for the amended C2 theorem: the start offset of the second line
of a concrete two-line file reads that line's date prefix. -/
theorem c2_dateAt_line_start_witness :
    getDateAtPosition (flattenLines [lineA, lineB]) (lineOffset [lineA, lineB] 1) =
      some (lineB.take 10) :=
  c2_dateAt_line_start [lineA, lineB] (by decide) 1 (by decide)

/-- C3 fails on the code: when no newline occurs between the probed offset
and end-of-file, the read promise never settles (`none`), so the binary
search hangs instead of converging with a TruncatedLine boundary result. -/
theorem c3_truncated_read_hangs :
    getDateAtPosition fileTruncated 0 = none ∧
    getDateAtPosition fileTruncated 5 = none ∧
    binarySearch fileTruncated date1201 = none ∧
    extractLogs fileTruncated date1201 = ExtractOutcome.hang (outputFileName date1201) := by
  decide

/-- C4 counterexample: `2024-13-40` matches the `YYYY-MM-DD` shape regex, so
it is not rejected; the extraction proceeds through directory creation,
output-file creation and the stat to a normal completion. -/
theorem c4_calendar_invalid_accepted :
    isValidDateFormat dateBad40 = true ∧
    extractLogs [] dateBad40 = ExtractOutcome.done ⟨0, 0, outputFileName dateBad40, []⟩ ∧
    extractLogs [] dateBad40 ≠ ExtractOutcome.invalidDateFormat := by decide

/-- C4 amended: every target failing the shape regex (such as `20241201` or
the empty string, but not `2024-13-40`) is rejected with InvalidDateFormat
before any file operation is modelled. -/
theorem c4_shape_reject_no_io (file : List Char) (target : List Char)
    (h : isValidDateFormat target = false) :
    extractLogs file target = ExtractOutcome.invalidDateFormat := by
  simp [extractLogs, extractLogsCore, h]

/-- Witness for the amended C4 theorem at the two shape-invalid dates of the
claim. -/
theorem c4_shape_reject_no_io_witness :
    isValidDateFormat dateBadCompact = false ∧
    extractLogs fileOneLine dateBadCompact = ExtractOutcome.invalidDateFormat ∧
    isValidDateFormat [] = false ∧
    extractLogs fileOneLine [] = ExtractOutcome.invalidDateFormat :=
  ⟨by decide, c4_shape_reject_no_io fileOneLine dateBadCompact (by decide), by decide,
    c4_shape_reject_no_io fileOneLine [] (by decide)⟩

/-- C5 counterexample: a well-formed sorted one-line file that holds no line
dated `2024-12-02`, yet whose line content spells that date at offset 11; the
probe at offset 11 reads it, the search returns Found(11) rather than
NotFound, and the extraction reports one matched line and writes it out. -/
theorem c5_absent_date_found_counterexample :
    wfFile fileSneaky = true ∧
    isValidDateFormat target1202 = true ∧
    matchingLines fileSneaky target1202 = [] ∧
    binarySearch fileSneaky target1202 = some 11 ∧
    extractLogs fileSneaky target1202 =
      ExtractOutcome.done ⟨23, 1, outputFileName target1202, sneakyOutput⟩ := by decide

/-- C5 amended: an empty file returns NotFound immediately, and whenever the
search does return NotFound the extraction reports zero matched lines and an
empty output file; but NotFound is not guaranteed for every absent date,
since a probe landing on content bytes that spell the target can report
Found. -/
theorem c5_notfound_zero_matches :
    (∀ t : List Char, binarySearch [] t = some (-1)) ∧
    (∀ file t : List Char, isValidDateFormat t = true → binarySearch file t = some (-1) →
      ∃ s : Summary, extractLogs file t = ExtractOutcome.done s ∧ s.matchedLines = 0 ∧
        s.outputContent = []) := by
  constructor
  · intro t
    unfold binarySearch binarySearchWith
    rw [bsLoop_exit (getDateAtPosition []) t (by norm_num) (-1)]
    simp
  · intro file t h1 h2
    have hb : binarySearchWith (getDateAtPosition file) t file.length = some (-1) := h2
    refine ⟨⟨0, 0, outputFileName t, []⟩, ?_, rfl, rfl⟩
    simp [extractLogs, extractLogsCore, h1, hb]

/-- Witness for the amended C5 theorem: the empty file and a concrete
NotFound run. -/
theorem c5_notfound_zero_matches_witness :
    binarySearch [] target1202 = some (-1) ∧
    ∃ s : Summary, extractLogs fileOneLine dateAbsent = ExtractOutcome.done s ∧
      s.matchedLines = 0 ∧ s.outputContent = [] :=
  ⟨c5_notfound_zero_matches.1 target1202,
    c5_notfound_zero_matches.2 fileOneLine dateAbsent (by decide) (by decide)⟩

/-- C6 confirmed: whenever the search returns Found(p), either p = 0 or the
date read at offset p - 1 resolves and differs from the target — the
backtrack loop stops only at position 0 or at a non-matching probe. -/
theorem c6_found_is_backtracked (file target : List Char) (p : Int)
    (h : binarySearch file target = some p) (hne : p ≠ -1) :
    p = 0 ∨ ∃ d, getDateAtPosition file (p - 1).toNat = some d ∧ d ≠ target := by
  unfold binarySearch binarySearchWith at h
  cases hbs : bsLoop (getDateAtPosition file) target (file.length + 1) 0
      ((file.length : Int) - 1) (-1) with
  | none => rw [hbs] at h; exact absurd h (by simp)
  | some sp =>
    rw [hbs] at h
    simp only at h
    by_cases hsp : sp = -1
    · rw [if_pos hsp] at h
      injection h with h
      exact absurd h.symm hne
    · rw [if_neg hsp] at h
      have h0 : (0 : Int) ≤ sp := by
        rcases bsLoop_out (getDateAtPosition file) target _ _ _ _ _ hbs with h2 | ⟨h2, h3⟩
        · exact absurd h2 hsp
        · exact h2
      exact backtrackLoop_post (getDateAtPosition file) target (sp.toNat + 1) sp p h0
        (by omega) h

/-- Witness for C6: on `fileSneaky` the search returns Found(11) and the
probe at offset 10 reads a window that differs from the target. -/
theorem c6_found_is_backtracked_witness :
    (11 : Int) = 0 ∨ ∃ d, getDateAtPosition fileSneaky ((11 : Int) - 1).toNat = some d ∧
      d ≠ target1202 :=
  c6_found_is_backtracked fileSneaky target1202 11 (by decide) (by decide)

/-- C7 counterexample: a successful (non-throwing) extraction over a 13-byte
file whose target date is absent returns a summary with totalLines = 0, not
the stat'ed byte size 13. -/
theorem c7_notfound_totalLines_zero :
    fileOneLine.length = 13 ∧
    extractLogs fileOneLine dateAbsent =
      ExtractOutcome.done ⟨0, 0, outputFileName dateAbsent, []⟩ := by decide

/-- C7 amended: when the search finds a position, the summary's totalLines
field equals the log file's size in bytes (the stat'ed fileSize), not a line
count; on the NotFound path it is the constant 0. -/
theorem c7_found_totalLines_fileSize (file target : List Char) (sp : Int)
    (h1 : isValidDateFormat target = true) (h2 : binarySearch file target = some sp)
    (h3 : sp ≠ -1) :
    ∃ s : Summary, extractLogs file target = ExtractOutcome.done s ∧
      s.totalLines = file.length := by
  have hb : binarySearchWith (getDateAtPosition file) target file.length = some sp := h2
  refine ⟨⟨file.length, (scanLines target (jsLines (file.drop sp.toNat))).1,
    outputFileName target, (scanLines target (jsLines (file.drop sp.toNat))).2⟩, ?_, rfl⟩
  simp [extractLogs, extractLogsCore, h1, hb, h3]

/-- Witness for the amended C7 theorem at a concrete found run. -/
theorem c7_found_totalLines_fileSize_witness :
    ∃ s : Summary, extractLogs fileSneaky target1202 = ExtractOutcome.done s ∧
      s.totalLines = fileSneaky.length :=
  c7_found_totalLines_fileSize fileSneaky target1202 11 (by decide) (by decide) (by decide)

/-- C8 confirmed: the extraction outcome — output-file bytes and matched-line
count included — is a function of the file content and the target date only:
any two runs, whatever chunk boundaries their stream reads happen to deliver,
produce identical outcomes. -/
theorem c8_deterministic_output (file target : List Char)
    (o1 o2 : Nat → List (List Char)) (h1 : ValidOracle file o1) (h2 : ValidOracle file o2) :
    extractLogsChunked file o1 target = extractLogsChunked file o2 target := by
  rw [extractLogsChunked_eq h1 target, extractLogsChunked_eq h2 target]

/-- Witness for C8: two different chunk schedules on the concrete scenario
file give identical outcomes. -/
theorem c8_deterministic_output_witness :
    extractLogsChunked fileConcrete (fun p => [fileConcrete.drop p]) target1202 =
      extractLogsChunked fileConcrete (fun p => [[], fileConcrete.drop p]) target1202 :=
  c8_deterministic_output fileConcrete target1202 _ _ (fun p => by simp) (fun p => by simp)

/-- C9 confirmed: for a well-formed target the output file (inside the output
directory) is created empty before the search runs: on a NotFound search the
extraction completes leaving the empty output file, and even when the search
hangs the output file already exists. -/
theorem c9_output_created_before_search (file target : List Char)
    (h : isValidDateFormat target = true) :
    (binarySearch file target = some (-1) →
      extractLogs file target = ExtractOutcome.done ⟨0, 0, outputFileName target, []⟩) ∧
    (binarySearch file target = none →
      extractLogs file target = ExtractOutcome.hang (outputFileName target)) := by
  constructor
  · intro hb
    have hb' : binarySearchWith (getDateAtPosition file) target file.length = some (-1) := hb
    simp [extractLogs, extractLogsCore, h, hb']
  · intro hb
    have hb' : binarySearchWith (getDateAtPosition file) target file.length = none := hb
    simp [extractLogs, extractLogsCore, h, hb']

/-- Witness for C9: a concrete NotFound run leaves an empty output file, and
a concrete hanging run has already created it. -/
theorem c9_output_created_before_search_witness :
    extractLogs fileOneLine dateAbsent =
      ExtractOutcome.done ⟨0, 0, outputFileName dateAbsent, []⟩ ∧
    extractLogs fileTruncated date1201 = ExtractOutcome.hang (outputFileName date1201) :=
  ⟨(c9_output_created_before_search fileOneLine dateAbsent (by decide)).1 (by decide),
    (c9_output_created_before_search fileTruncated date1201 (by decide)).2 (by decide)⟩

/-- C10 confirmed: assuming every in-file date read resolves, the whole
search resolves (no hang); and giving the main loop any extra fuel beyond
fileSize + 1 iterations changes nothing, because every iteration strictly
shrinks the interval, so the loop has already exited through its guard. -/
theorem c10_search_terminates (file target : List Char) :
    ((∀ p, p < file.length → (getDateAtPosition file p).isSome = true) →
      (binarySearch file target).isSome = true) ∧
    (∀ extra, bsLoop (getDateAtPosition file) target (file.length + 1 + extra) 0
        ((file.length : Int) - 1) (-1) =
      bsLoop (getDateAtPosition file) target (file.length + 1) 0
        ((file.length : Int) - 1) (-1)) := by
  constructor
  · intro hreads
    exact binarySearchWith_isSome (getDateAtPosition file) target file.length hreads
  · intro extra
    exact bsLoop_fuel_indep (getDateAtPosition file) target (file.length + 1) extra 0
      ((file.length : Int) - 1) (-1) (by omega)

/-- Witness for C10 on the concrete scenario file, with 7 units of extra
fuel. -/
theorem c10_search_terminates_witness :
    (binarySearch fileConcrete target1202).isSome = true ∧
    bsLoop (getDateAtPosition fileConcrete) target1202 (fileConcrete.length + 1 + 7) 0
        ((fileConcrete.length : Int) - 1) (-1) =
      bsLoop (getDateAtPosition fileConcrete) target1202 (fileConcrete.length + 1) 0
        ((fileConcrete.length : Int) - 1) (-1) :=
  ⟨(c10_search_terminates fileConcrete target1202).1 (by decide),
    (c10_search_terminates fileConcrete target1202).2 7⟩

end ExtractLogs
